import Mathlib

/-!
Verification of the e-paper display driver layer: framebuffer geometry and
bit-packing, the driver protocol's channel handling, and the grayscale
bit-plane rendering algorithm.

Modelling conventions, shared by all definitions below:
* Rust `usize`/`u8` values are modelled as `Nat`; byte values are kept below
  256 by the bitwise operations themselves (masks are 8-bit).
* A packed byte buffer `[u8; N]` is modelled as its contents function
  `Nat → Nat` (byte index to byte value) together with the length `N` carried
  by the display-size record; slice indexing outside `[0, N)` and `usize`
  subtraction underflow are Rust panics and are modelled as `none`.
* Fallible operations therefore return `Option` (`none` = panic) or
  `Except DisplayError` (transport-level results).
-/

namespace Epd

/-- `DisplayRotation` from `display.rs`: clockwise rotation of the logical
drawing surface. -/
inductive DisplayRotation where
  | rotate0
  | rotate90
  | rotate180
  | rotate270
  deriving DecidableEq

/-- `Mirroring` from `display.rs`. -/
inductive Mirroring where
  | none
  | horizontal
  | vertical
  | origin
  deriving DecidableEq

/-- A `DisplaySize` impl from `display.rs`: compile-time width and height in
pixels and `N`, the byte count of one binary plane. -/
structure DisplaySize where
  width : Nat
  height : Nat
  n : Nat
  deriving DecidableEq

/-- `DisplaySize128x296`: `N = (WIDTH / 8) * HEIGHT`. -/
def displaySize128x296 : DisplaySize := ⟨128, 296, (128 / 8) * 296⟩

/-- `DisplaySize200x300`: `N = (WIDTH / 8) * HEIGHT`. -/
def displaySize200x300 : DisplaySize := ⟨200, 300, (200 / 8) * 300⟩

/-- `DisplaySize212x104` (WIDTH=104, HEIGHT=212): `N = (WIDTH / 8 + 1) * HEIGHT`. -/
def displaySize212x104 : DisplaySize := ⟨104, 212, (104 / 8 + 1) * 212⟩

/-- `DisplaySize104x201` (WIDTH=212, HEIGHT=104): `N = (WIDTH / 8 + 1) * HEIGHT`. -/
def displaySize104x201 : DisplaySize := ⟨212, 104, (212 / 8 + 1) * 104⟩

/-- `DisplaySize250x122` (WIDTH=122, HEIGHT=250): `N = (WIDTH / 8 + 1) * HEIGHT`. -/
def displaySize250x122 : DisplaySize := ⟨122, 250, (122 / 8 + 1) * 250⟩

/-- `DisplaySize400x300`: `N = (WIDTH / 8) * HEIGHT`. -/
def displaySize400x300 : DisplaySize := ⟨400, 300, (400 / 8) * 300⟩

/-- The 8-pixel-wide, 1-pixel-tall plane of the specification's gray
round-trip scenario (§8), with `N` formed as `(WIDTH / 8) * HEIGHT`. -/
def displaySize8x1 : DisplaySize := ⟨8, 1, (8 / 8) * 1⟩

/-- `SIZE::WIDTH / 8 + (SIZE::WIDTH % 8 != 0) as usize` from
`FrameBuffer::set_pixel`. -/
def widthInByte (sz : DisplaySize) : Nat :=
  sz.width / 8 + (if sz.width % 8 ≠ 0 then 1 else 0)

/-- Checked `usize` subtraction: Rust debug-profile subtraction panics on
underflow, modelled as `none`. -/
def csub (a b : Nat) : Option Nat :=
  if b ≤ a then some (a - b) else none

/-- The logical (width, height) seen by a caller under the current rotation;
the `match self.rotation` at the top of both `set_pixel` functions. -/
def logicalSize (sz : DisplaySize) (rot : DisplayRotation) : Nat × Nat :=
  match rot with
  | .rotate0 | .rotate180 => (sz.width, sz.height)
  | _ => (sz.height, sz.width)

/-- The rotation map of `set_pixel` (both planes share it), with the `usize`
subtractions `SIZE::WIDTH - y - 1` etc. modelled checked. -/
def rotatePos (sz : DisplaySize) (rot : DisplayRotation) (x y : Nat) :
    Option (Nat × Nat) :=
  match rot with
  | .rotate0 => some (x, y)
  | .rotate90 => do
      let a ← csub sz.width y
      let a ← csub a 1
      pure (a, x)
  | .rotate180 => do
      let a ← csub sz.width x
      let a ← csub a 1
      let b ← csub sz.height y
      let b ← csub b 1
      pure (a, b)
  | .rotate270 => do
      let b ← csub sz.height x
      let b ← csub b 1
      pure (y, b)

/-- The mirroring map of `set_pixel`, applied to the rotated coordinates,
using the un-rotated `SIZE::WIDTH` / `SIZE::HEIGHT`. -/
def mirrorPos (sz : DisplaySize) (m : Mirroring) (x y : Nat) :
    Option (Nat × Nat) :=
  match m with
  | .horizontal => do
      let a ← csub sz.width x
      let a ← csub a 1
      pure (a, y)
  | .vertical => do
      let b ← csub sz.height y
      let b ← csub b 1
      pure (x, b)
  | .origin => do
      let a ← csub sz.width x
      let a ← csub a 1
      let b ← csub sz.height y
      let b ← csub b 1
      pure (a, b)
  | .none => some (x, y)

/-- Total version of the rotation map (the source formulas with `Nat`
truncated subtraction); agrees with `rotatePos` on in-range input. -/
def rotatePosT (sz : DisplaySize) (rot : DisplayRotation) (x y : Nat) :
    Nat × Nat :=
  match rot with
  | .rotate0 => (x, y)
  | .rotate90 => (sz.width - y - 1, x)
  | .rotate180 => (sz.width - x - 1, sz.height - y - 1)
  | .rotate270 => (y, sz.height - x - 1)

/-- Total version of the mirroring map. -/
def mirrorPosT (sz : DisplaySize) (m : Mirroring) (x y : Nat) : Nat × Nat :=
  match m with
  | .horizontal => (sz.width - x - 1, y)
  | .vertical => (x, sz.height - y - 1)
  | .origin => (sz.width - x - 1, sz.height - y - 1)
  | .none => (x, y)

/-- Bit addressing of a binary plane: physical `(x', y')` to
`(byte offset, bit-within-byte)`, MSB-first (`byte = y'·wib + x'/8`,
`bit = 7 − x'%8`). -/
def bitAddr (sz : DisplaySize) (x y : Nat) : Nat × Nat :=
  (y * widthInByte sz + x / 8, 7 - x % 8)

/-- The complete logical-coordinate to stored-bit address map realised by
`FrameBuffer::set_pixel`: rotate, then mirror, then bit addressing. -/
def pixelAddr (sz : DisplaySize) (rot : DisplayRotation) (m : Mirroring)
    (x y : Nat) : Nat × Nat :=
  let p := rotatePosT sz rot x y
  let q := mirrorPosT sz m p.1 p.2
  bitAddr sz q.1 q.2

/-- Write the single bit `bit` of byte `byte` to value `v`, preserving every
other bit (`|= mask` / `&= !mask` on a `u8`). -/
def writeBit (buf : Nat → Nat) (byte bit : Nat) (v : Bool) : Nat → Nat :=
  Function.update buf byte
    (if v then buf byte ||| (1 <<< bit) else buf byte &&& (0xff ^^^ (1 <<< bit)))

/-- `BinaryColor` of embedded-graphics, as used by the binary plane. -/
inductive BinaryColor where
  | off
  | on
  deriving DecidableEq

/-- `BinaryColor::is_on`. -/
def BinaryColor.isOn : BinaryColor → Bool
  | .off => false
  | .on => true

/-- `FrameBuffer<SIZE>` from `display.rs`: one bit per pixel. The byte array
`buf: [u8; SIZE::N]` is modelled by its contents function. -/
structure FrameBuffer where
  buf : Nat → Nat
  rotation : DisplayRotation
  mirroring : Mirroring
  inverted : Bool

/-- Replace the byte buffer of a plane, keeping the configuration. -/
def FrameBuffer.withBuf (fb : FrameBuffer) (b : Nat → Nat) : FrameBuffer :=
  { fb with buf := b }

/-- `FrameBuffer::new`: `mem::zeroed()` buffer, `Rotate0`, no mirroring, not
inverted. -/
def FrameBuffer.new : FrameBuffer :=
  ⟨fun _ => 0x00, .rotate0, .none, false⟩

/-- `FrameBuffer::new_inverted`: buffer filled with `0xff`, `inverted = true`. -/
def FrameBuffer.new_inverted : FrameBuffer :=
  ⟨fun _ => 0xff, .rotate0, .none, true⟩

/-- `FrameBuffer::fill`: `(On, true) | (Off, false) → 0xff`, otherwise `0x00`. -/
def FrameBuffer.fill (fb : FrameBuffer) (color : BinaryColor) : FrameBuffer :=
  let colorRaw :=
    match color, fb.inverted with
    | .on, true => 0xff
    | .off, false => 0xff
    | .off, true => 0x00
    | .on, false => 0x00
  { fb with buf := fun _ => colorRaw }

/-- `FrameBuffer::as_bytes` (the `N` bytes of the plane). -/
def FrameBuffer.as_bytes (sz : DisplaySize) (fb : FrameBuffer) : List Nat :=
  (List.range sz.n).map fb.buf

/-- `FrameBuffer::set_pixel` from `display.rs`. Note both range checks use
`>` (not `>=`), exactly as the source does; `none` models a panic
(out-of-bounds slice index or subtraction underflow). -/
def FrameBuffer.set_pixel (sz : DisplaySize) (fb : FrameBuffer) (x y : Nat)
    (pixel : Bool) : Option FrameBuffer :=
  let wib := widthInByte sz
  let wh := logicalSize sz fb.rotation
  if x > wh.1 ∨ y > wh.2 then some fb
  else do
    let p ← rotatePos sz fb.rotation x y
    let q ← mirrorPos sz fb.mirroring p.1 p.2
    if q.1 > sz.width ∨ q.2 > sz.height then some fb
    else
      let byteOffset := q.2 * wib + q.1 / 8
      if byteOffset < sz.n then
        let newByte :=
          if pixel != fb.inverted then
            fb.buf byteOffset &&& (0xff ^^^ (0x80 >>> (q.1 % 8)))
          else
            fb.buf byteOffset ||| (0x80 >>> (q.1 % 8))
        some { fb with buf := Function.update fb.buf byteOffset newByte }
      else none

/-! ## Gray colors (`color.rs`) -/

/-- The four `GrayColorInBits` color types: `Gray2`, `Gray4`, `Gray8` are
re-exports of embedded-graphics colors; `Gray3` is defined in `color.rs`. -/
inductive GrayKind where
  | gray2
  | gray3
  | gray4
  | gray8
  deriving DecidableEq

/-- `BITS_PER_PIXEL` of each `GrayColorInBits` impl. -/
def GrayKind.bits : GrayKind → Nat
  | .gray2 => 2
  | .gray3 => 3
  | .gray4 => 4
  | .gray8 => 8

/-- `MAX_VALUE = (1 << Self::BITS_PER_PIXEL) - 1` from `color.rs`. -/
def GrayKind.maxValue (k : GrayKind) : Nat :=
  (1 <<< k.bits) - 1

/-- `from_u8`, acting on the stored luma. `Gray3::from_u8` is translated from
`color.rs` (explicit saturation at 7). `Gray2/Gray4/Gray8::from_u8` call
`GrayN::new` of the external embedded-graphics crate; modelled from that
dependency: `GrayN::new(luma)` stores `luma` through `RawUN::new`, which masks
the value to the low `N` bits. -/
def GrayKind.fromU8 : GrayKind → Nat → Nat
  | .gray3, v => if v > 7 then 7 else v
  | .gray2, v => v % 4
  | .gray4, v => v % 16
  | .gray8, v => v % 256

/-- The luma of each color type's `WHITE` constant (`Gray3::WHITE = 0b111` from
`color.rs`; `GrayN::WHITE` of embedded-graphics is the maximal luma). -/
def GrayKind.whiteLuma : GrayKind → Nat
  | .gray2 => 3
  | .gray3 => 7
  | .gray4 => 15
  | .gray8 => 255

/-! ## Gray frame plane (`display.rs`) -/

/-- `width_in_bits / 8 + (width_in_bits % 8 != 0)` where
`width_in_bits = SIZE::WIDTH * C::BITS_PER_PIXEL`, from
`GrayFrameBuffer::{get_pixel_in_raw_pos, set_pixel}`. -/
def grayWidthInByte (sz : DisplaySize) (bits : Nat) : Nat :=
  (sz.width * bits) / 8 + (if (sz.width * bits) % 8 ≠ 0 then 1 else 0)

/-- `GrayFrameBuffer<SIZE, C>` from `display.rs`: `C::BITS_PER_PIXEL` bits per
pixel, byte array `[u8; SIZE::N * C::BITS_PER_PIXEL]` modelled by its
contents function. -/
structure GrayFrameBuffer where
  buf : Nat → Nat
  rotation : DisplayRotation
  mirroring : Mirroring

/-- Replace the byte buffer of a gray plane, keeping the configuration. -/
def GrayFrameBuffer.withBuf (fb : GrayFrameBuffer) (b : Nat → Nat) :
    GrayFrameBuffer :=
  { fb with buf := b }

/-- `GrayFrameBuffer::new`: buffer filled with `0xff`, `Rotate0`, no
mirroring. -/
def GrayFrameBuffer.new : GrayFrameBuffer :=
  ⟨fun _ => 0xff, .rotate0, .none⟩

/-- `GrayFrameBuffer::fill`. -/
def GrayFrameBuffer.fill (fb : GrayFrameBuffer) (color : BinaryColor) :
    GrayFrameBuffer :=
  if color.isOn then { fb with buf := fun _ => 0xff }
  else { fb with buf := fun _ => 0x00 }

/-- `GrayFrameBuffer::get_pixel_in_raw_pos`, returning the luma of the `C`
value the source returns (out of range gives `C::WHITE`; otherwise the `b`
stored bits are assembled into `luma` and passed through `C::from_u8`). -/
def GrayFrameBuffer.get_pixel_in_raw_pos (k : GrayKind) (sz : DisplaySize)
    (fb : GrayFrameBuffer) (x y : Nat) : Nat :=
  if x ≥ sz.width ∨ y ≥ sz.height then k.whiteLuma
  else
    let wib := grayWidthInByte sz k.bits
    let luma := (List.range k.bits).foldl (fun luma i =>
      let bitOffset := x * k.bits + i
      let byteOffset := wib * y + bitOffset / 8
      let bit := 7 - bitOffset % 8
      if fb.buf byteOffset &&& (1 <<< bit) ≠ 0 then luma ||| (1 <<< i)
      else luma) 0
    k.fromU8 luma

/-- One bit-write step of `GrayFrameBuffer::set_pixel`'s
`for i in 0..C::BITS_PER_PIXEL` loop, with the slice index checked against the
buffer length `SIZE::N * C::BITS_PER_PIXEL`. `luma` is `pixel.luma()`. -/
def graySetStep (k : GrayKind) (sz : DisplaySize) (px py luma : Nat)
    (fb : GrayFrameBuffer) (i : Nat) : Option GrayFrameBuffer :=
  let wib := grayWidthInByte sz k.bits
  let bitOffset := px * k.bits + i
  let byteOffset := wib * py + bitOffset / 8
  let bit := 7 - bitOffset % 8
  if byteOffset < sz.n * k.bits then
    let newByte :=
      if luma &&& (1 <<< i) ≠ 0 then fb.buf byteOffset ||| (1 <<< bit)
      else fb.buf byteOffset &&& (0xff ^^^ (1 <<< bit))
    some { fb with buf := Function.update fb.buf byteOffset newByte }
  else none

/-- `GrayFrameBuffer::set_pixel` from `display.rs`: range check (with `>=`),
rotation, mirroring (no second range check in the source), then the per-bit
write loop. The `pixel: C` argument is represented by its luma. -/
def GrayFrameBuffer.set_pixel (k : GrayKind) (sz : DisplaySize)
    (fb : GrayFrameBuffer) (x y luma : Nat) : Option GrayFrameBuffer :=
  let wh := logicalSize sz fb.rotation
  if x ≥ wh.1 ∨ y ≥ wh.2 then some fb
  else do
    let p ← rotatePos sz fb.rotation x y
    let q ← mirrorPos sz fb.mirroring p.1 p.2
    (List.range k.bits).foldlM (graySetStep k sz q.1 q.2 luma) fb

/-! ## Grayscale rendering (`GrayScaleEpd::display_frame`, `lib.rs`) -/

/-- The events a grayscale render emits toward the driver. -/
inductive RenderEvent where
  | setupGrayscaleWaveform
  | updateFrame (buf : Nat → Nat)
  | turnOnDisplay

/-- The `(x, y)` traversal order of the scratch-buffer fill loop:
`for y in 0..HEIGHT { for x in 0..WIDTH { ... } }`. -/
def pixList (w h : Nat) : List (Nat × Nat) :=
  (List.range h).flatMap fun y => (List.range w).map fun x => (x, y)

/-- One step of the scratch-buffer fill: clear the pixel's bit (mark it dark)
when its stored luma is strictly below the current level `i`; the slice index
into `tmp: [u8; SIZE::N]` is checked. -/
def grayScratchStep (k : GrayKind) (sz : DisplaySize) (fb : GrayFrameBuffer)
    (i : Nat) (tmp : Nat → Nat) (xy : Nat × Nat) : Option (Nat → Nat) :=
  let byteOffset := xy.2 * widthInByte sz + xy.1 / 8
  let bitOffset := 7 - xy.1 % 8
  let val := fb.get_pixel_in_raw_pos k sz xy.1 xy.2
  if val < i then
    if byteOffset < sz.n then
      some (Function.update tmp byteOffset (tmp byteOffset &&& (0xff ^^^ (1 <<< bitOffset))))
    else none
  else some tmp

/-- The binary scratch buffer built for level `i`: starts as `[0xff; SIZE::N]`;
each pixel with `luma < i` has its bit cleared. -/
def grayScratch (k : GrayKind) (sz : DisplaySize) (fb : GrayFrameBuffer)
    (i : Nat) : Option (Nat → Nat) :=
  (pixList sz.width sz.height).foldlM (grayScratchStep k sz fb i) (fun _ => 0xff)

/-- `GrayScaleEpd::display_frame` from `lib.rs`: set up the grayscale
waveform, then `for i in (0..C::MAX_VALUE + 1).rev()` build the scratch buffer
for level `i`, send it with `update_frame` and call `turn_on_display`. -/
def grayDisplayFrame (k : GrayKind) (sz : DisplaySize) (fb : GrayFrameBuffer) :
    Option (List RenderEvent) :=
  (List.range (k.maxValue + 1)).reverse.foldlM (fun acc i => do
    let tmp ← grayScratch k sz fb i
    pure (acc ++ [RenderEvent.updateFrame tmp, RenderEvent.turnOnDisplay]))
    [RenderEvent.setupGrayscaleWaveform]

/-! ## Tri-color compositing (`TriColorEpd::draw_iter`, `lib.rs`) -/

/-- `TriColor` from `color.rs`. -/
inductive TriColor where
  | white
  | black
  | red
  deriving DecidableEq

/-- `TryInto::<(u32, u32)>::try_into(coord)` on an embedded-graphics `Point`:
succeeds exactly when both signed coordinates are non-negative. -/
def pointToUnsigned (p : Int × Int) : Option (Nat × Nat) :=
  if p.1 ≥ 0 ∧ p.2 ≥ 0 then some (p.1.toNat, p.2.toNat) else none

/-- `FrameBuffer::draw_iter` restricted to a single pixel: convert the point,
silently skip it when the conversion fails, otherwise `set_pixel` with
`color.is_on()`. -/
def FrameBuffer.draw_pixel (sz : DisplaySize) (fb : FrameBuffer)
    (p : Int × Int) (color : BinaryColor) : Option FrameBuffer :=
  match pointToUnsigned p with
  | some (x, y) => fb.set_pixel sz x y color.isOn
  | none => some fb

/-- `TriColorEpd::draw_iter` restricted to a single pixel: the `match color`
from `lib.rs`, writing one `BinaryColor` pixel into each of the two planes at
the same point. -/
def TriColorEpd.draw_pixel (sz : DisplaySize) (fb0 fb1 : FrameBuffer)
    (p : Int × Int) (color : TriColor) : Option (FrameBuffer × FrameBuffer) :=
  match color with
  | .white => do
      let f0 ← fb0.draw_pixel sz p .on
      let f1 ← fb1.draw_pixel sz p .off
      pure (f0, f1)
  | .black => do
      let f0 ← fb0.draw_pixel sz p .off
      let f1 ← fb1.draw_pixel sz p .off
      pure (f0, f1)
  | .red => do
      let f0 ← fb0.draw_pixel sz p .on
      let f1 ← fb1.draw_pixel sz p .on
      pure (f0, f1)

/-- The decomposition table of §4.5 of the design, stated in the spec's own
terms: channel-0 and channel-1 bit for each of the three colors. -/
def specTriTable : TriColor → BinaryColor × BinaryColor
  | .white => (.on, .off)
  | .black => (.off, .off)
  | .red => (.on, .on)

/-! ## Driver protocol: multi-channel frame transfer (`drivers/` and
`interface.rs`) -/

/-- `DisplayError` from `interface.rs`. -/
inductive DisplayError where
  | InvalidFormatError
  | BusWriteError
  | DCError
  | CSError
  | BUSYError
  | InvalidChannel
  deriving DecidableEq

/-- Bytes observed on the command/data transport: `send_command` emits a
`command`, `send_data` / `send_data_from_iter` emit `data`;
`send_command_data` is the composition. -/
inductive BusEvent where
  | command (code : Nat)
  | data (bytes : List Nat)
  deriving DecidableEq

/-- `UC8176::update_channel_frame` (`drivers/uc8176.rs`): channel 0 is command
`0x10`, channel 1 is command `0x13`, anything else returns
`Err(DisplayError::InvalidChannel)` before touching the transport. -/
def UC8176.update_channel_frame (channel : Nat) (buffer : List Nat) :
    Except DisplayError (List BusEvent) :=
  if channel = 0 then .ok [.command 0x10, .data buffer]
  else if channel = 1 then .ok [.command 0x13, .data buffer]
  else .error .InvalidChannel

/-- `UC8179::update_channel_frame` (`drivers/uc8179.rs`): same shape as
`UC8176`. -/
def UC8179.update_channel_frame (channel : Nat) (buffer : List Nat) :
    Except DisplayError (List BusEvent) :=
  if channel = 0 then .ok [.command 0x10, .data buffer]
  else if channel = 1 then .ok [.command 0x13, .data buffer]
  else .error .InvalidChannel

/-- The RAM-cursor positioning prefix `0x4e [0]; 0x4f [0, 0]` the SSD-family
`update_channel_frame` impls issue before checking the channel. -/
def ssdCursorPrefix : List BusEvent :=
  [.command 0x4e, .data [0], .command 0x4f, .data [0, 0]]

/-- `SSD1619A::update_channel_frame` (`drivers/ssd1619a.rs`): positions the
cursor, then channel 0 → `0x24`, channel 1 → `0x26`; any other channel falls
into an empty `else` branch (a bare `// error` comment) and the function
returns `Ok(())`. -/
def SSD1619A.update_channel_frame (channel : Nat) (buffer : List Nat) :
    Except DisplayError (List BusEvent) :=
  if channel = 0 then .ok (ssdCursorPrefix ++ [.command 0x24, .data buffer])
  else if channel = 1 then .ok (ssdCursorPrefix ++ [.command 0x26, .data buffer])
  else .ok ssdCursorPrefix

/-- `SSD1680::update_channel_frame` (`drivers/ssd1680.rs`): same shape as
`SSD1619A`, empty `else`, returns `Ok(())`. -/
def SSD1680.update_channel_frame (channel : Nat) (buffer : List Nat) :
    Except DisplayError (List BusEvent) :=
  if channel = 0 then .ok (ssdCursorPrefix ++ [.command 0x24, .data buffer])
  else if channel = 1 then .ok (ssdCursorPrefix ++ [.command 0x26, .data buffer])
  else .ok ssdCursorPrefix

/-- `SSD1675B::update_channel_frame` (`drivers/ssd1675b.rs`): same shape as
`SSD1619A`, empty `else` (`// error`), returns `Ok(())`. -/
def SSD1675B.update_channel_frame (channel : Nat) (buffer : List Nat) :
    Except DisplayError (List BusEvent) :=
  if channel = 0 then .ok (ssdCursorPrefix ++ [.command 0x24, .data buffer])
  else if channel = 1 then .ok (ssdCursorPrefix ++ [.command 0x26, .data buffer])
  else .ok ssdCursorPrefix

/-- `PervasiveDisplays::update_channel_frame` (`drivers/pd.rs`): channel 0 →
`0x10`, channel 1 → `0x13`, any other channel does nothing and returns
`Ok(())`. -/
def PervasiveDisplays.update_channel_frame (channel : Nat) (buffer : List Nat) :
    Except DisplayError (List BusEvent) :=
  if channel = 0 then .ok [.command 0x10, .data buffer]
  else if channel = 1 then .ok [.command 0x13, .data buffer]
  else .ok []

/-! ## The specification's geometry maps (for C2) -/

/-- The rotation map as the specification states it:
0°→identity; 90°→`(width−1−y, x)`; 180°→`(width−1−x, height−1−y)`;
270°→`(y, height−1−x)`. -/
def specRotate (sz : DisplaySize) (rot : DisplayRotation) (p : Nat × Nat) :
    Nat × Nat :=
  match rot with
  | .rotate0 => p
  | .rotate90 => (sz.width - 1 - p.2, p.1)
  | .rotate180 => (sz.width - 1 - p.1, sz.height - 1 - p.2)
  | .rotate270 => (p.2, sz.height - 1 - p.1)

/-- The mirror map as the specification states it, within the un-rotated
plane's own width/height: horizontal flips `x' = width−1−x'`, vertical flips
`y' = height−1−y'`, both flips apply both. -/
def specMirror (sz : DisplaySize) (m : Mirroring) (p : Nat × Nat) :
    Nat × Nat :=
  match m with
  | .none => p
  | .horizontal => (sz.width - 1 - p.1, p.2)
  | .vertical => (p.1, sz.height - 1 - p.2)
  | .origin => (sz.width - 1 - p.1, sz.height - 1 - p.2)

/-- The `(byte offset, bit-within-byte)` address of bit `i` of the pixel at
raw position `(x, y)` in a gray plane (`bit_offset = x·b + i`,
`byte_offset = wib·y + bit_offset/8`, `bit = 7 − bit_offset%8`). -/
def grayPos (k : GrayKind) (sz : DisplaySize) (x y i : Nat) : Nat × Nat :=
  (grayWidthInByte sz k.bits * y + (x * k.bits + i) / 8, 7 - (x * k.bits + i) % 8)

/-- The pure scratch buffer of one grayscale pass: translated from the loop
body of `GrayScaleEpd::display_frame` with the (in-bounds) slice write
expressed as a `writeBit`; `grayScratch` reduces to it when the addresses are
in bounds. -/
def grayScratchFn (k : GrayKind) (sz : DisplaySize) (fb : GrayFrameBuffer)
    (i : Nat) : Nat → Nat :=
  (pixList sz.width sz.height).foldl (fun tmp xy =>
    if fb.get_pixel_in_raw_pos k sz xy.1 xy.2 < i then
      writeBit tmp (bitAddr sz xy.1 xy.2).1 (bitAddr sz xy.1 xy.2).2 false
    else tmp) (fun _ => 0xff)

/-! ## Arithmetic and bit-level helper lemmas -/

theorem one_shiftLeft_eq (k : Nat) : (1 : Nat) <<< k = 2 ^ k := by
  simp [Nat.shiftLeft_eq]

theorem x80_shiftRight (k : Nat) (hk : k < 8) :
    (0x80 : Nat) >>> k = 1 <<< (7 - k) := by
  interval_cases k <;> rfl

theorem and_shiftLeft_ne_zero (a i : Nat) :
    (a &&& (1 <<< i) ≠ 0) ↔ a.testBit i = true := by
  rw [one_shiftLeft_eq, Nat.and_two_pow]
  cases h : a.testBit i <;> simp [Nat.pos_iff_ne_zero.mp (Nat.two_pow_pos i)]

theorem testBit_xff (k : Nat) : (0xff : Nat).testBit k = decide (k < 8) := by
  have : (0xff : Nat) = 2 ^ 8 - 1 := rfl
  rw [this, Nat.testBit_two_pow_sub_one]

theorem writeBit_self (buf : Nat → Nat) (byte bit : Nat) (v : Bool)
    (hbit : bit ≤ 7) :
    ((writeBit buf byte bit v) byte).testBit bit = v := by
  unfold writeBit
  rw [Function.update_same, one_shiftLeft_eq]
  cases v with
  | true => simp [Nat.testBit_or, Nat.testBit_two_pow_self]
  | false =>
      simp only [if_neg (by simp : ¬ (false = true)), Nat.testBit_and,
        Nat.testBit_xor, testBit_xff, Nat.testBit_two_pow_self]
      simp [show bit < 8 by omega]

theorem writeBit_other (buf : Nat → Nat) (byte bit : Nat) (v : Bool)
    (byte' bit' : Nat) (h : (byte, bit) ≠ (byte', bit')) (hbit' : bit' ≤ 7) :
    ((writeBit buf byte bit v) byte').testBit bit' = (buf byte').testBit bit' := by
  unfold writeBit
  by_cases hb : byte' = byte
  · subst hb
    have hne : bit ≠ bit' := by
      intro hcon
      exact h (by simp [hcon])
    rw [Function.update_same, one_shiftLeft_eq]
    cases v with
    | true => simp [Nat.testBit_or, Nat.testBit_two_pow_of_ne hne]
    | false =>
        simp only [if_neg (by simp : ¬ (false = true)), Nat.testBit_and,
          Nat.testBit_xor, testBit_xff, Nat.testBit_two_pow_of_ne hne]
        simp [show bit' < 8 by omega]
  · rw [Function.update_noteq hb]

theorem foldlM_option_eq_foldl {α β : Type} (stepM : β → α → Option β)
    (step : β → α → β) (l : List α)
    (h : ∀ b a, a ∈ l → stepM b a = some (step b a)) (b : β) :
    l.foldlM stepM b = some (l.foldl step b) := by
  induction l generalizing b with
  | nil => rfl
  | cons a t ih =>
      rw [List.foldlM_cons, h b a (by simp), Option.bind_eq_bind,
        Option.some_bind, List.foldl_cons]
      exact ih (fun b' a' ha' => h b' a' (by simp [ha'])) (step b a)

theorem foldl_writeBit_range (p : Nat → Nat × Nat) (v : Nat → Bool) (n : Nat)
    (buf : Nat → Nat)
    (hp : ∀ i j, i < n → j < n → p i = p j → i = j)
    (hbit : ∀ i, i < n → (p i).2 ≤ 7) (j : Nat) (hj : j < n) :
    (((List.range n).foldl (fun b i => writeBit b (p i).1 (p i).2 (v i)) buf)
      (p j).1).testBit (p j).2 = v j := by
  induction n with
  | zero => omega
  | succ m ih =>
      rw [List.range_succ, List.foldl_append, List.foldl_cons, List.foldl_nil]
      by_cases hjm : j = m
      · subst hjm
        exact writeBit_self _ _ _ _ (hbit j hj)
      · have hj' : j < m := by omega
        rw [writeBit_other _ _ _ _ _ _
          (fun hcon => hjm (hp m j (by omega) hj hcon).symm) (hbit j hj)]
        exact ih (fun i j hi hj => hp i j (by omega) (by omega))
          (fun i hi => hbit i (by omega)) hj'

theorem foldl_readBits (P : Nat → Prop) [DecidablePred P] (n j : Nat) :
    ((List.range n).foldl (fun l i => if P i then l ||| (1 <<< i) else l)
      0).testBit j = (decide (j < n) && decide (P j)) := by
  induction n with
  | zero => simp
  | succ m ih =>
      rw [List.range_succ, List.foldl_append, List.foldl_cons, List.foldl_nil]
      by_cases hg : P m
      · rw [if_pos hg, one_shiftLeft_eq, Nat.testBit_or, ih]
        by_cases hjm : j = m
        · subst hjm
          simp [Nat.testBit_two_pow_self, hg]
        · rw [Nat.testBit_two_pow_of_ne (fun hcon => hjm hcon.symm)]
          by_cases hj : j < m
          · simp [hj, show j < m + 1 by omega]
          · simp [hj, show ¬ j < m + 1 by omega, hjm]
      · rw [if_neg hg, ih]
        by_cases hjm : j = m
        · subst hjm
          simp [hg]
        · by_cases hj : j < m
          · simp [hj, show j < m + 1 by omega]
          · simp [hj, show ¬ j < m + 1 by omega, hjm]

/-! ## Geometry lemmas -/

theorem csub_eq_some {a b : Nat} (h : b ≤ a) : csub a b = some (a - b) := by
  simp [csub, h]

theorem rotatePos_in_range (sz : DisplaySize) (rot : DisplayRotation)
    (x y : Nat) (hx : x < (logicalSize sz rot).1)
    (hy : y < (logicalSize sz rot).2) :
    rotatePos sz rot x y = some (rotatePosT sz rot x y) := by
  cases rot <;> simp only [logicalSize] at hx hy
  · rfl
  · rw [rotatePos, csub_eq_some (show y ≤ sz.width by omega),
      Option.bind_eq_bind, Option.some_bind,
      csub_eq_some (show 1 ≤ sz.width - y by omega), Option.some_bind]
    rfl
  · rw [rotatePos, csub_eq_some (show x ≤ sz.width by omega),
      Option.bind_eq_bind, Option.some_bind,
      csub_eq_some (show 1 ≤ sz.width - x by omega), Option.some_bind,
      csub_eq_some (show y ≤ sz.height by omega), Option.some_bind,
      csub_eq_some (show 1 ≤ sz.height - y by omega), Option.some_bind]
    rfl
  · rw [rotatePos, csub_eq_some (show x ≤ sz.height by omega),
      Option.bind_eq_bind, Option.some_bind,
      csub_eq_some (show 1 ≤ sz.height - x by omega), Option.some_bind]
    rfl

theorem rotatePosT_range (sz : DisplaySize) (rot : DisplayRotation)
    (x y : Nat) (hx : x < (logicalSize sz rot).1)
    (hy : y < (logicalSize sz rot).2) :
    (rotatePosT sz rot x y).1 < sz.width ∧
    (rotatePosT sz rot x y).2 < sz.height := by
  cases rot <;> simp only [logicalSize] at hx hy <;>
    simp [rotatePosT] <;> omega

theorem mirrorPos_in_range (sz : DisplaySize) (m : Mirroring) (x y : Nat)
    (hx : x < sz.width) (hy : y < sz.height) :
    mirrorPos sz m x y = some (mirrorPosT sz m x y) := by
  cases m
  · rfl
  · rw [mirrorPos, csub_eq_some (show x ≤ sz.width by omega),
      Option.bind_eq_bind, Option.some_bind,
      csub_eq_some (show 1 ≤ sz.width - x by omega), Option.some_bind]
    rfl
  · rw [mirrorPos, csub_eq_some (show y ≤ sz.height by omega),
      Option.bind_eq_bind, Option.some_bind,
      csub_eq_some (show 1 ≤ sz.height - y by omega), Option.some_bind]
    rfl
  · rw [mirrorPos, csub_eq_some (show x ≤ sz.width by omega),
      Option.bind_eq_bind, Option.some_bind,
      csub_eq_some (show 1 ≤ sz.width - x by omega), Option.some_bind,
      csub_eq_some (show y ≤ sz.height by omega), Option.some_bind,
      csub_eq_some (show 1 ≤ sz.height - y by omega), Option.some_bind]
    rfl

theorem mirrorPosT_range (sz : DisplaySize) (m : Mirroring) (x y : Nat)
    (hx : x < sz.width) (hy : y < sz.height) :
    (mirrorPosT sz m x y).1 < sz.width ∧
    (mirrorPosT sz m x y).2 < sz.height := by
  cases m <;> simp [mirrorPosT] <;> omega

theorem rotatePosT_inj (sz : DisplaySize) (rot : DisplayRotation)
    (x1 y1 x2 y2 : Nat) (hx1 : x1 < (logicalSize sz rot).1)
    (hy1 : y1 < (logicalSize sz rot).2) (hx2 : x2 < (logicalSize sz rot).1)
    (hy2 : y2 < (logicalSize sz rot).2)
    (h : rotatePosT sz rot x1 y1 = rotatePosT sz rot x2 y2) :
    x1 = x2 ∧ y1 = y2 := by
  cases rot <;> simp only [logicalSize] at hx1 hy1 hx2 hy2 <;>
    simp only [rotatePosT, Prod.mk.injEq] at h <;> omega

theorem mirrorPosT_inj (sz : DisplaySize) (m : Mirroring) (x1 y1 x2 y2 : Nat)
    (hx1 : x1 < sz.width) (hy1 : y1 < sz.height) (hx2 : x2 < sz.width)
    (hy2 : y2 < sz.height)
    (h : mirrorPosT sz m x1 y1 = mirrorPosT sz m x2 y2) :
    x1 = x2 ∧ y1 = y2 := by
  cases m <;> simp only [mirrorPosT, Prod.mk.injEq] at h <;> omega

theorem width_le_eight_wib (sz : DisplaySize) :
    sz.width ≤ 8 * widthInByte sz := by
  unfold widthInByte
  split <;> omega

theorem wib_pos (sz : DisplaySize) (h : 0 < sz.width) : 0 < widthInByte sz := by
  unfold widthInByte
  split <;> omega

theorem div8_lt_wib (sz : DisplaySize) (x : Nat) (hx : x < sz.width) :
    x / 8 < widthInByte sz := by
  rw [Nat.div_lt_iff_lt_mul (by omega)]
  have := width_le_eight_wib sz
  omega

theorem bitAddr_fst_lt (sz : DisplaySize) (x y : Nat) (hx : x < sz.width)
    (hy : y < sz.height) :
    (bitAddr sz x y).1 < sz.height * widthInByte sz := by
  have h1 : x / 8 < widthInByte sz := div8_lt_wib sz x hx
  have h2 : y * widthInByte sz + x / 8 < (y + 1) * widthInByte sz := by
    rw [Nat.succ_mul]
    omega
  have h3 : (y + 1) * widthInByte sz ≤ sz.height * widthInByte sz :=
    Nat.mul_le_mul_right _ (by omega)
  simpa [bitAddr] using lt_of_lt_of_le h2 h3

theorem mul_add_cancel_of_lt {w y1 r1 y2 r2 : Nat} (h1 : r1 < w) (h2 : r2 < w)
    (h : y1 * w + r1 = y2 * w + r2) : y1 = y2 ∧ r1 = r2 := by
  have hw : 0 < w := by omega
  have hy : y1 = y2 := by
    have e1 : (y1 * w + r1) / w = y1 := by
      rw [Nat.mul_comm y1 w, Nat.mul_add_div hw, Nat.div_eq_of_lt h1]
      omega
    have e2 : (y2 * w + r2) / w = y2 := by
      rw [Nat.mul_comm y2 w, Nat.mul_add_div hw, Nat.div_eq_of_lt h2]
      omega
    rw [← e1, ← e2, h]
  refine ⟨hy, ?_⟩
  subst hy
  omega

theorem bitAddr_inj (sz : DisplaySize) (x1 y1 x2 y2 : Nat) (hx1 : x1 < sz.width)
    (hx2 : x2 < sz.width) (h : bitAddr sz x1 y1 = bitAddr sz x2 y2) :
    x1 = x2 ∧ y1 = y2 := by
  simp only [bitAddr, Prod.mk.injEq] at h
  obtain ⟨hbyte, hbit⟩ := h
  have hmod : x1 % 8 = x2 % 8 := by omega
  obtain ⟨hy, hdiv⟩ := mul_add_cancel_of_lt (div8_lt_wib sz x1 hx1)
    (div8_lt_wib sz x2 hx2) hbyte
  exact ⟨by omega, hy⟩

/-- `FrameBuffer::set_pixel` on an in-range coordinate: it always succeeds and
performs exactly one bit write, at the address computed by rotation, then
mirroring, then MSB-first bit addressing. The stored bit is set (1) exactly
when `pixel == inverted` (`pixel ^ inverted` chooses the clear branch). -/
theorem set_pixel_char (sz : DisplaySize) (fb : FrameBuffer) (x y : Nat)
    (pixel : Bool) (hx : x < (logicalSize sz fb.rotation).1)
    (hy : y < (logicalSize sz fb.rotation).2)
    (hwf : sz.height * widthInByte sz ≤ sz.n) :
    fb.set_pixel sz x y pixel =
      some (fb.withBuf (writeBit fb.buf
        (pixelAddr sz fb.rotation fb.mirroring x y).1
        (pixelAddr sz fb.rotation fb.mirroring x y).2 (pixel == fb.inverted))) := by
  obtain ⟨hpx, hpy⟩ := rotatePosT_range sz fb.rotation x y hx hy
  obtain ⟨hqx, hqy⟩ := mirrorPosT_range sz fb.mirroring _ _ hpx hpy
  have hbyte : (bitAddr sz (mirrorPosT sz fb.mirroring (rotatePosT sz fb.rotation x y).1
      (rotatePosT sz fb.rotation x y).2).1 (mirrorPosT sz fb.mirroring
      (rotatePosT sz fb.rotation x y).1 (rotatePosT sz fb.rotation x y).2).2).1 < sz.n :=
    lt_of_lt_of_le (bitAddr_fst_lt sz _ _ hqx hqy) hwf
  unfold FrameBuffer.set_pixel
  rw [if_neg (by omega), rotatePos_in_range sz fb.rotation x y hx hy,
    Option.bind_eq_bind, Option.some_bind,
    mirrorPos_in_range sz fb.mirroring _ _ hpx hpy, Option.some_bind]
  rw [if_neg (by omega)]
  simp only [bitAddr] at hbyte
  rw [if_pos hbyte]
  unfold pixelAddr bitAddr writeBit
  simp only [Option.some.injEq, FrameBuffer.mk.injEq, and_true, true_and]
  congr 1
  rw [x80_shiftRight _ (by omega : (mirrorPosT sz fb.mirroring
    (rotatePosT sz fb.rotation x y).1 (rotatePosT sz fb.rotation x y).2).1 % 8 < 8)]
  cases hpi : pixel <;> cases hin : fb.inverted <;> simp

theorem specRotate_eq_rotatePosT (sz : DisplaySize) (rot : DisplayRotation)
    (x y : Nat) : specRotate sz rot (x, y) = rotatePosT sz rot x y := by
  cases rot <;> simp [specRotate, rotatePosT, Prod.ext_iff] <;> omega

theorem specMirror_eq_mirrorPosT (sz : DisplaySize) (m : Mirroring)
    (x y : Nat) : specMirror sz m (x, y) = mirrorPosT sz m x y := by
  cases m <;> simp [specMirror, mirrorPosT, Prod.ext_iff] <;> omega

/-! ## Gray plane lemmas -/

theorem grayWidth_le_eight_wib (sz : DisplaySize) (bits : Nat) :
    sz.width * bits ≤ 8 * grayWidthInByte sz bits := by
  unfold grayWidthInByte
  split <;> omega

theorem grayPos_fst_lt (k : GrayKind) (sz : DisplaySize) (x y i : Nat)
    (hx : x < sz.width) (hy : y < sz.height) (hi : i < k.bits) :
    (grayPos k sz x y i).1 < sz.height * grayWidthInByte sz k.bits := by
  have hbits : x * k.bits + i < sz.width * k.bits := by
    have : (x + 1) * k.bits ≤ sz.width * k.bits := Nat.mul_le_mul_right _ (by omega)
    rw [Nat.succ_mul] at this
    omega
  have hdiv : (x * k.bits + i) / 8 < grayWidthInByte sz k.bits := by
    rw [Nat.div_lt_iff_lt_mul (by omega)]
    have := grayWidth_le_eight_wib sz k.bits
    omega
  have h2 : grayWidthInByte sz k.bits * y + (x * k.bits + i) / 8 <
      grayWidthInByte sz k.bits * (y + 1) := by
    rw [Nat.mul_succ]
    omega
  have h3 : grayWidthInByte sz k.bits * (y + 1) ≤
      sz.height * grayWidthInByte sz k.bits := by
    rw [Nat.mul_comm sz.height _]
    exact Nat.mul_le_mul_left _ (by omega)
  simpa [grayPos] using lt_of_lt_of_le h2 h3

theorem grayPos_inj (k : GrayKind) (sz : DisplaySize) (x y : Nat)
    (i j : Nat) (h : grayPos k sz x y i = grayPos k sz x y j) : i = j := by
  simp only [grayPos, Prod.mk.injEq] at h
  obtain ⟨h1, h2⟩ := h
  generalize grayWidthInByte sz k.bits * y = w at h1
  omega

theorem grayPos_snd_le (k : GrayKind) (sz : DisplaySize) (x y i : Nat) :
    (grayPos k sz x y i).2 ≤ 7 := by
  have h : (grayPos k sz x y i).2 = 7 - (x * k.bits + i) % 8 := rfl
  omega

/-- A fold whose steps only replace the byte buffer of a gray plane equals
the buffer-level fold. -/
theorem foldl_withBuf {α : Type} (f : (Nat → Nat) → α → (Nat → Nat))
    (l : List α) (fb : GrayFrameBuffer) :
    l.foldl (fun g i => g.withBuf (f g.buf i)) fb =
      fb.withBuf (l.foldl f fb.buf) := by
  induction l generalizing fb with
  | nil => rfl
  | cons a t ih =>
      rw [List.foldl_cons, List.foldl_cons, ih]
      rfl

/-- The per-bit write loop of `GrayFrameBuffer::set_pixel`, run at a raw
position whose bit addresses stay inside the buffer, is the pure sequence of
`writeBit` updates of the luma's bits. -/
theorem graySet_fold_char (k : GrayKind) (sz : DisplaySize) (px py luma : Nat)
    (hpx : px < sz.width) (hpy : py < sz.height)
    (hwf : sz.height * grayWidthInByte sz k.bits ≤ sz.n * k.bits)
    (fb : GrayFrameBuffer) :
    (List.range k.bits).foldlM (graySetStep k sz px py luma) fb =
      some (fb.withBuf ((List.range k.bits).foldl (fun b i =>
        writeBit b (grayPos k sz px py i).1 (grayPos k sz px py i).2
          (luma.testBit i)) fb.buf)) := by
  rw [foldlM_option_eq_foldl (graySetStep k sz px py luma)
    (fun fb2 i => fb2.withBuf (writeBit fb2.buf (grayPos k sz px py i).1
      (grayPos k sz px py i).2 (luma.testBit i)))]
  · exact congrArg some (foldl_withBuf (fun b i => writeBit b
      (grayPos k sz px py i).1 (grayPos k sz px py i).2 (luma.testBit i))
      (List.range k.bits) fb)
  · intro fb2 i hi
    have hi' : i < k.bits := List.mem_range.mp hi
    have hlt : (grayPos k sz px py i).1 < sz.n * k.bits :=
      lt_of_lt_of_le (grayPos_fst_lt k sz px py i hpx hpy hi') hwf
    unfold graySetStep
    simp only [grayPos] at hlt
    rw [if_pos hlt]
    unfold writeBit GrayFrameBuffer.withBuf grayPos
    simp only [Option.some.injEq, GrayFrameBuffer.mk.injEq, and_true, true_and]
    by_cases hb : luma.testBit i
    · rw [if_pos ((and_shiftLeft_ne_zero luma i).mpr hb), if_pos hb]
    · rw [if_neg (fun hcon => hb ((and_shiftLeft_ne_zero luma i).mp hcon)),
        if_neg hb]

theorem fromU8_id (k : GrayKind) (v : Nat) (hv : v < 2 ^ k.bits) :
    k.fromU8 v = v := by
  cases k <;> simp only [GrayKind.fromU8, GrayKind.bits] at hv ⊢ <;>
    norm_num at hv
  · omega
  · rw [if_neg (by omega)]
  · omega
  · omega

/-! ## Conditional bit-clearing folds (the grayscale scratch loop) -/

theorem foldl_clear_untouched {α : Type} (q : α → Nat × Nat) (c : α → Prop)
    [DecidablePred c] (l : List α) (buf : Nat → Nat) (P : Nat × Nat)
    (hne : ∀ e ∈ l, q e ≠ P) (hP : P.2 ≤ 7) :
    ((l.foldl (fun b e => if c e then writeBit b (q e).1 (q e).2 false else b)
      buf) P.1).testBit P.2 = (buf P.1).testBit P.2 := by
  induction l generalizing buf with
  | nil => rfl
  | cons a t ih =>
      rw [List.foldl_cons, ih _ (fun e he => hne e (List.mem_cons_of_mem a he))]
      by_cases hc : c a
      · rw [if_pos hc, writeBit_other _ _ _ _ _ _
          (by simpa using hne a (List.mem_cons_self a t)) hP]
      · rw [if_neg hc]

theorem foldl_clear_char {α : Type} (q : α → Nat × Nat) (c : α → Prop)
    [DecidablePred c] (l : List α) (buf : Nat → Nat) (e : α) (he : e ∈ l)
    (hnd : (l.map q).Nodup) (hbit : ∀ x ∈ l, (q x).2 ≤ 7) :
    ((l.foldl (fun b x => if c x then writeBit b (q x).1 (q x).2 false else b)
      buf) (q e).1).testBit (q e).2 =
      (if c e then false else (buf (q e).1).testBit (q e).2) := by
  induction l generalizing buf with
  | nil => cases he
  | cons a t ih =>
      rw [List.map_cons, List.nodup_cons] at hnd
      obtain ⟨hqa, hndt⟩ := hnd
      rw [List.foldl_cons]
      by_cases het : e ∈ t
      · have hqe : q e ≠ q a := fun hcon =>
          hqa (hcon ▸ List.mem_map_of_mem q het)
        rw [ih _ het hndt (fun x hx => hbit x (List.mem_cons_of_mem a hx))]
        by_cases hce : c e
        · rw [if_pos hce, if_pos hce]
        · rw [if_neg hce, if_neg hce]
          by_cases hca : c a
          · rw [if_pos hca, writeBit_other _ _ _ _ _ _
              (by simpa using hqe.symm) (hbit e he)]
          · rw [if_neg hca]
      · have hee : e = a := by
          rcases List.mem_cons.mp he with h | h
          · exact h
          · exact absurd h het
        subst hee
        rw [foldl_clear_untouched q c t _ (q e)
          (fun x hx hcon => hqa (hcon ▸ List.mem_map_of_mem q hx))
          (hbit e (List.mem_cons_self e t))]
        by_cases hc : c e
        · rw [if_pos hc, if_pos hc,
            writeBit_self _ _ _ _ (hbit e (List.mem_cons_self e t))]
        · rw [if_neg hc, if_neg hc]

/-! ## pixList lemmas -/

theorem mem_pixList {w h x y : Nat} : (x, y) ∈ pixList w h ↔ x < w ∧ y < h := by
  simp only [pixList, List.mem_flatMap, List.mem_map, List.mem_range,
    Prod.mk.injEq]
  constructor
  · rintro ⟨y', hy', x', hx', hxe, hye⟩
    omega
  · rintro ⟨hx, hy⟩
    exact ⟨y, hy, x, hx, rfl, rfl⟩

theorem pixList_nodup (w h : Nat) : (pixList w h).Nodup := by
  unfold pixList
  rw [List.nodup_flatMap]
  refine ⟨fun y _ => ?_, ?_⟩
  · exact (List.nodup_range w).map (fun a b hab => (Prod.mk.injEq _ _ _ _).mp hab |>.1)
  · refine (List.pairwise_lt_range h).imp ?_
    intro y1 y2 hlt
    rw [Function.onFun, List.disjoint_left]
    rintro p hp1 hp2
    simp only [List.mem_map, List.mem_range] at hp1 hp2
    obtain ⟨x1, _, he1⟩ := hp1
    obtain ⟨x2, _, he2⟩ := hp2
    rw [← he1] at he2
    have := (Prod.mk.injEq _ _ _ _).mp he2
    omega

theorem pixList_map_bitAddr_nodup (sz : DisplaySize) :
    ((pixList sz.width sz.height).map (fun xy => bitAddr sz xy.1 xy.2)).Nodup := by
  refine List.Nodup.map_on ?_ (pixList_nodup sz.width sz.height)
  rintro ⟨x1, y1⟩ h1 ⟨x2, y2⟩ h2 heq
  have hx1 := (mem_pixList.mp h1).1
  have hx2 := (mem_pixList.mp h2).1
  obtain ⟨hx, hy⟩ := bitAddr_inj sz x1 y1 x2 y2 hx1 hx2 heq
  simp [hx, hy]

/-! ## Grayscale rendering lemmas -/

theorem grayScratch_eq (k : GrayKind) (sz : DisplaySize) (fb : GrayFrameBuffer)
    (i : Nat) (hwf : sz.height * widthInByte sz ≤ sz.n) :
    grayScratch k sz fb i = some (grayScratchFn k sz fb i) := by
  unfold grayScratch grayScratchFn
  apply foldlM_option_eq_foldl
  rintro tmp ⟨x, y⟩ hxy
  obtain ⟨hx, hy⟩ := mem_pixList.mp hxy
  have hlt : (bitAddr sz x y).1 < sz.n :=
    lt_of_lt_of_le (bitAddr_fst_lt sz x y hx hy) hwf
  unfold grayScratchStep
  by_cases hc : fb.get_pixel_in_raw_pos k sz x y < i
  · rw [if_pos hc, if_pos hc]
    simp only [bitAddr] at hlt
    rw [if_pos hlt]
    rfl
  · rw [if_neg hc, if_neg hc]

theorem foldl_append_eq {α β : Type} (f : α → List β) (l : List α)
    (init : List β) :
    l.foldl (fun acc i => acc ++ f i) init = init ++ l.flatMap f := by
  induction l generalizing init with
  | nil => simp
  | cons a t ih => simp [List.foldl_cons, ih, List.flatMap_cons]

theorem maxValue_succ (k : GrayKind) : k.maxValue + 1 = 2 ^ k.bits := by
  cases k <;> rfl

theorem grayDisplayFrame_eq (k : GrayKind) (sz : DisplaySize)
    (fb : GrayFrameBuffer) (hwf : sz.height * widthInByte sz ≤ sz.n) :
    grayDisplayFrame k sz fb =
      some (RenderEvent.setupGrayscaleWaveform ::
        (List.range (2 ^ k.bits)).reverse.flatMap (fun i =>
          [RenderEvent.updateFrame (grayScratchFn k sz fb i),
           RenderEvent.turnOnDisplay])) := by
  unfold grayDisplayFrame
  rw [maxValue_succ]
  rw [foldlM_option_eq_foldl _ (fun acc i => acc ++
    [RenderEvent.updateFrame (grayScratchFn k sz fb i),
     RenderEvent.turnOnDisplay])]
  · rw [foldl_append_eq]
    rfl
  · intro acc i _
    rw [grayScratch_eq k sz fb i hwf]
    rfl

theorem grayScratchFn_testBit (k : GrayKind) (sz : DisplaySize)
    (fb : GrayFrameBuffer) (i x y : Nat) (hx : x < sz.width)
    (hy : y < sz.height) :
    ((grayScratchFn k sz fb i) (bitAddr sz x y).1).testBit (bitAddr sz x y).2 =
      (if fb.get_pixel_in_raw_pos k sz x y < i then false else true) := by
  unfold grayScratchFn
  have hchar := foldl_clear_char (fun xy => bitAddr sz xy.1 xy.2)
    (fun xy => fb.get_pixel_in_raw_pos k sz xy.1 xy.2 < i)
    (pixList sz.width sz.height) (fun _ => 0xff) (x, y)
    (mem_pixList.mpr ⟨hx, hy⟩) (pixList_map_bitAddr_nodup sz)
    (fun xy _ => by
      show (bitAddr sz xy.1 xy.2).2 ≤ 7
      have h : (bitAddr sz xy.1 xy.2).2 = 7 - xy.1 % 8 := rfl
      omega)
  rw [hchar]
  by_cases hc : fb.get_pixel_in_raw_pos k sz x y < i
  · rw [if_pos hc, if_pos hc]
  · rw [if_neg hc, if_neg hc]
    have h2 : (bitAddr sz x y).2 = 7 - x % 8 := rfl
    rw [testBit_xff]
    simp [h2]
    omega

/-! ## Gray set/get round trip -/

theorem graySet_rot0_char (k : GrayKind) (sz : DisplaySize)
    (fb : GrayFrameBuffer) (x y luma : Nat) (hrot : fb.rotation = .rotate0)
    (hmir : fb.mirroring = .none) (hx : x < sz.width) (hy : y < sz.height)
    (hwf : sz.height * grayWidthInByte sz k.bits ≤ sz.n * k.bits) :
    fb.set_pixel k sz x y luma =
      some (fb.withBuf ((List.range k.bits).foldl (fun b i =>
        writeBit b (grayPos k sz x y i).1 (grayPos k sz x y i).2
          (luma.testBit i)) fb.buf)) := by
  unfold GrayFrameBuffer.set_pixel
  rw [hrot, hmir]
  rw [if_neg (by simp only [logicalSize]; omega)]
  show Option.bind (rotatePos sz .rotate0 x y) _ = _
  rw [show rotatePos sz .rotate0 x y = some (x, y) from rfl, Option.some_bind]
  show Option.bind (mirrorPos sz .none x y) _ = _
  rw [show mirrorPos sz .none x y = some (x, y) from rfl, Option.some_bind]
  exact graySet_fold_char k sz x y luma hx hy hwf fb

theorem gray_get_of_bits (k : GrayKind) (sz : DisplaySize)
    (g : GrayFrameBuffer) (x y level : Nat) (hx : x < sz.width)
    (hy : y < sz.height) (hl : level < 2 ^ k.bits)
    (hbits : ∀ j, j < k.bits →
      (g.buf (grayPos k sz x y j).1).testBit (grayPos k sz x y j).2 =
        level.testBit j) :
    g.get_pixel_in_raw_pos k sz x y = level := by
  have hbitsr : ∀ j, j < k.bits →
      (g.buf (grayWidthInByte sz k.bits * y + (x * k.bits + j) / 8)).testBit
        (7 - (x * k.bits + j) % 8) = level.testBit j := hbits
  unfold GrayFrameBuffer.get_pixel_in_raw_pos
  rw [if_neg (by omega)]
  have hluma : (List.range k.bits).foldl (fun luma i =>
      if g.buf (grayWidthInByte sz k.bits * y + (x * k.bits + i) / 8) &&&
          (1 <<< (7 - (x * k.bits + i) % 8)) ≠ 0 then luma ||| (1 <<< i)
      else luma) 0 = level := by
    apply Nat.eq_of_testBit_eq
    intro j
    rw [foldl_readBits (fun i =>
      g.buf (grayWidthInByte sz k.bits * y + (x * k.bits + i) / 8) &&&
        (1 <<< (7 - (x * k.bits + i) % 8)) ≠ 0) k.bits j]
    by_cases hj : j < k.bits
    · rw [show decide (j < k.bits) = true by simp [hj], Bool.true_and]
      have hiff : (g.buf (grayWidthInByte sz k.bits * y +
          (x * k.bits + j) / 8) &&& (1 <<< (7 - (x * k.bits + j) % 8)) ≠ 0) ↔
          (level.testBit j = true) := by
        rw [and_shiftLeft_ne_zero, hbitsr j hj]
      cases hlv : level.testBit j
      · exact decide_eq_false (fun hP => by
          rw [hiff.mp hP] at hlv
          cases hlv)
      · exact decide_eq_true (hiff.mpr hlv)
    · rw [show decide (j < k.bits) = false by simp [hj], Bool.false_and]
      have hlt : level < 2 ^ j :=
        lt_of_lt_of_le hl (Nat.pow_le_pow_right (by omega) (by omega))
      rw [Nat.testBit_lt_two_pow hlt]
  show k.fromU8 ((List.range k.bits).foldl _ 0) = level
  rw [hluma]
  exact fromU8_id k level hl

/-! ## Claim theorems -/

theorem pixelAddr_eq_spec (sz : DisplaySize) (rot : DisplayRotation)
    (m : Mirroring) (x y : Nat) :
    pixelAddr sz rot m x y =
      bitAddr sz (specMirror sz m (specRotate sz rot (x, y))).1
        (specMirror sz m (specRotate sz rot (x, y))).2 := by
  have h1 : specRotate sz rot (x, y) = rotatePosT sz rot x y :=
    specRotate_eq_rotatePosT sz rot x y
  rw [h1]
  have h2 : specMirror sz m (rotatePosT sz rot x y) =
      mirrorPosT sz m (rotatePosT sz rot x y).1 (rotatePosT sz rot x y).2 :=
    specMirror_eq_mirrorPosT sz m (rotatePosT sz rot x y).1
      (rotatePosT sz rot x y).2
  rw [h2]
  rfl

theorem specPhys_eq (sz : DisplaySize) (rot : DisplayRotation)
    (m : Mirroring) (x y : Nat) :
    specMirror sz m (specRotate sz rot (x, y)) =
      mirrorPosT sz m (rotatePosT sz rot x y).1 (rotatePosT sz rot x y).2 := by
  rw [specRotate_eq_rotatePosT]
  exact specMirror_eq_mirrorPosT sz m (rotatePosT sz rot x y).1
    (rotatePosT sz rot x y).2

/-- `GrayFrameBuffer::set_pixel` on an in-range coordinate under an arbitrary
rotation and mirroring: it succeeds and writes the `b` luma bits at the gray
bit addresses of the physical position obtained by rotating, then
mirroring. -/
theorem graySet_char (k : GrayKind) (sz : DisplaySize) (fb : GrayFrameBuffer)
    (x y luma : Nat) (hx : x < (logicalSize sz fb.rotation).1)
    (hy : y < (logicalSize sz fb.rotation).2)
    (hwf : sz.height * grayWidthInByte sz k.bits ≤ sz.n * k.bits) :
    fb.set_pixel k sz x y luma =
      some (fb.withBuf ((List.range k.bits).foldl (fun b i =>
        writeBit b
          (grayPos k sz (mirrorPosT sz fb.mirroring
            (rotatePosT sz fb.rotation x y).1
            (rotatePosT sz fb.rotation x y).2).1
            (mirrorPosT sz fb.mirroring (rotatePosT sz fb.rotation x y).1
              (rotatePosT sz fb.rotation x y).2).2 i).1
          (grayPos k sz (mirrorPosT sz fb.mirroring
            (rotatePosT sz fb.rotation x y).1
            (rotatePosT sz fb.rotation x y).2).1
            (mirrorPosT sz fb.mirroring (rotatePosT sz fb.rotation x y).1
              (rotatePosT sz fb.rotation x y).2).2 i).2
          (luma.testBit i)) fb.buf)) := by
  obtain ⟨hpx, hpy⟩ := rotatePosT_range sz fb.rotation x y hx hy
  obtain ⟨hqx, hqy⟩ := mirrorPosT_range sz fb.mirroring _ _ hpx hpy
  unfold GrayFrameBuffer.set_pixel
  rw [if_neg (by omega), rotatePos_in_range sz fb.rotation x y hx hy,
    Option.bind_eq_bind, Option.some_bind,
    mirrorPos_in_range sz fb.mirroring _ _ hpx hpy, Option.some_bind]
  exact graySet_fold_char k sz _ _ luma hqx hqy hwf fb

/-- Claim C2: for every in-range logical coordinate, `set_pixel` — on the
binary plane and on the gray plane alike — computes the physical position by
first applying the rotation map (0°: identity; 90°: `(WIDTH−1−y, x)`;
180°: `(WIDTH−1−x, HEIGHT−1−y)`; 270°: `(y, HEIGHT−1−x)`) and then the mirror
map on the rotated result using the un-rotated plane's own WIDTH and HEIGHT,
and stores the pixel at exactly that physical position: the binary plane
writes the pixel's single bit there, the gray plane writes the `b` luma bits
at that position's bit addresses. -/
theorem c2_set_pixel_rotate_then_mirror (sz : DisplaySize) (fb : FrameBuffer)
    (g : GrayFrameBuffer) (k : GrayKind) (x y gx gy : Nat) (pixel : Bool)
    (luma : Nat) (hx : x < (logicalSize sz fb.rotation).1)
    (hy : y < (logicalSize sz fb.rotation).2)
    (hgx : gx < (logicalSize sz g.rotation).1)
    (hgy : gy < (logicalSize sz g.rotation).2)
    (hwf : sz.height * widthInByte sz ≤ sz.n)
    (hgwf : sz.height * grayWidthInByte sz k.bits ≤ sz.n * k.bits) :
    fb.set_pixel sz x y pixel =
      some (fb.withBuf (writeBit fb.buf
        (bitAddr sz (specMirror sz fb.mirroring
          (specRotate sz fb.rotation (x, y))).1
          (specMirror sz fb.mirroring (specRotate sz fb.rotation (x, y))).2).1
        (bitAddr sz (specMirror sz fb.mirroring
          (specRotate sz fb.rotation (x, y))).1
          (specMirror sz fb.mirroring (specRotate sz fb.rotation (x, y))).2).2
        (pixel == fb.inverted))) ∧
    g.set_pixel k sz gx gy luma =
      some (g.withBuf ((List.range k.bits).foldl (fun b i =>
        writeBit b
          (grayPos k sz (specMirror sz g.mirroring
            (specRotate sz g.rotation (gx, gy))).1
            (specMirror sz g.mirroring (specRotate sz g.rotation (gx, gy))).2
            i).1
          (grayPos k sz (specMirror sz g.mirroring
            (specRotate sz g.rotation (gx, gy))).1
            (specMirror sz g.mirroring (specRotate sz g.rotation (gx, gy))).2
            i).2
          (luma.testBit i)) g.buf)) := by
  constructor
  · rw [set_pixel_char sz fb x y pixel hx hy hwf, pixelAddr_eq_spec]
  · rw [graySet_char k sz g gx gy luma hgx hgy hgwf, specPhys_eq]

/-- Witness for C2: concrete in-range writes on the 128×296 plane — the
binary plane under rotation 90° with horizontal mirroring, the gray plane
(2 bits per pixel) under rotation 270° with origin mirroring. -/
theorem c2_set_pixel_rotate_then_mirror_witness :
    (3 < (logicalSize displaySize128x296 DisplayRotation.rotate90).1 ∧
     5 < (logicalSize displaySize128x296 DisplayRotation.rotate90).2 ∧
     7 < (logicalSize displaySize128x296 DisplayRotation.rotate270).1 ∧
     2 < (logicalSize displaySize128x296 DisplayRotation.rotate270).2 ∧
     displaySize128x296.height * widthInByte displaySize128x296 ≤
       displaySize128x296.n ∧
     displaySize128x296.height * grayWidthInByte displaySize128x296
       GrayKind.gray2.bits ≤ displaySize128x296.n * GrayKind.gray2.bits) ∧
    (FrameBuffer.set_pixel displaySize128x296
      ⟨fun _ => 0, .rotate90, .horizontal, false⟩ 3 5 true =
      some ((⟨fun _ => 0, .rotate90, .horizontal, false⟩ : FrameBuffer).withBuf
        (writeBit (fun _ => 0)
          (bitAddr displaySize128x296 (specMirror displaySize128x296
            .horizontal (specRotate displaySize128x296 .rotate90 (3, 5))).1
            (specMirror displaySize128x296 .horizontal
              (specRotate displaySize128x296 .rotate90 (3, 5))).2).1
          (bitAddr displaySize128x296 (specMirror displaySize128x296
            .horizontal (specRotate displaySize128x296 .rotate90 (3, 5))).1
            (specMirror displaySize128x296 .horizontal
              (specRotate displaySize128x296 .rotate90 (3, 5))).2).2
          (true == false))) ∧
     GrayFrameBuffer.set_pixel .gray2 displaySize128x296
      ⟨fun _ => 0xff, .rotate270, .origin⟩ 7 2 1 =
      some ((⟨fun _ => 0xff, .rotate270, .origin⟩ : GrayFrameBuffer).withBuf
        ((List.range GrayKind.gray2.bits).foldl (fun b i =>
          writeBit b
            (grayPos .gray2 displaySize128x296 (specMirror displaySize128x296
              .origin (specRotate displaySize128x296 .rotate270 (7, 2))).1
              (specMirror displaySize128x296 .origin
                (specRotate displaySize128x296 .rotate270 (7, 2))).2 i).1
            (grayPos .gray2 displaySize128x296 (specMirror displaySize128x296
              .origin (specRotate displaySize128x296 .rotate270 (7, 2))).1
              (specMirror displaySize128x296 .origin
                (specRotate displaySize128x296 .rotate270 (7, 2))).2 i).2
            ((1 : Nat).testBit i)) (fun _ => 0xff)))) :=
  ⟨⟨by decide, by decide, by decide, by decide, by decide, by decide⟩,
    c2_set_pixel_rotate_then_mirror displaySize128x296
      ⟨fun _ => 0, .rotate90, .horizontal, false⟩
      ⟨fun _ => 0xff, .rotate270, .origin⟩ .gray2 3 5 7 2 true 1 (by decide)
      (by decide) (by decide) (by decide) (by decide) (by decide)⟩

/-- Claim C3 (code bug): `set_pixel` is claimed to be a silent no-op for every
out-of-range coordinate, but the bounds checks use `>` instead of `>=`.
Evaluating the model at the boundary `x = WIDTH = 128` on the 128×296 plane:
at `(128, 295)` the byte offset is `295·16 + 16 = 4736 = SIZE::N`, an
out-of-bounds slice index (a Rust panic, `none` here); at `(128, 0)` the write
lands in byte 16 — the first byte of row 1 — corrupting another pixel's
data instead of being dropped. -/
theorem c3_set_pixel_bounds_bug :
    (FrameBuffer.set_pixel displaySize128x296 FrameBuffer.new
      128 295 true).isNone = true ∧
    ((FrameBuffer.set_pixel displaySize128x296 FrameBuffer.new 128 0
      false).map (fun fb => fb.buf 16)) = some 0x80 ∧
    FrameBuffer.new.buf 16 = 0 := by
  refine ⟨by decide, by decide, by decide⟩

/-- Claim C4: for each fixed rotation and mirror mode, the map from in-range
logical coordinates to the stored (byte offset, bit-within-byte) position
addressed by `set_pixel` (which writes at `pixelAddr`, by
`c2_set_pixel_rotate_then_mirror`) is injective. -/
theorem c4_pixel_addressing_injective (sz : DisplaySize)
    (rot : DisplayRotation) (m : Mirroring) (x1 y1 x2 y2 : Nat)
    (h1x : x1 < (logicalSize sz rot).1) (h1y : y1 < (logicalSize sz rot).2)
    (h2x : x2 < (logicalSize sz rot).1) (h2y : y2 < (logicalSize sz rot).2)
    (heq : pixelAddr sz rot m x1 y1 = pixelAddr sz rot m x2 y2) :
    x1 = x2 ∧ y1 = y2 := by
  obtain ⟨hp1x, hp1y⟩ := rotatePosT_range sz rot x1 y1 h1x h1y
  obtain ⟨hp2x, hp2y⟩ := rotatePosT_range sz rot x2 y2 h2x h2y
  obtain ⟨hq1x, hq1y⟩ := mirrorPosT_range sz m _ _ hp1x hp1y
  obtain ⟨hq2x, hq2y⟩ := mirrorPosT_range sz m _ _ hp2x hp2y
  simp only [pixelAddr] at heq
  obtain ⟨hxe, hye⟩ := bitAddr_inj sz _ _ _ _ hq1x hq2x heq
  have hmq : mirrorPosT sz m (rotatePosT sz rot x1 y1).1
      (rotatePosT sz rot x1 y1).2 = mirrorPosT sz m
      (rotatePosT sz rot x2 y2).1 (rotatePosT sz rot x2 y2).2 :=
    Prod.ext_iff.mpr ⟨hxe, hye⟩
  obtain ⟨hre1, hre2⟩ := mirrorPosT_inj sz m _ _ _ _ hp1x hp1y hp2x hp2y hmq
  have hr : rotatePosT sz rot x1 y1 = rotatePosT sz rot x2 y2 :=
    Prod.ext_iff.mpr ⟨hre1, hre2⟩
  exact rotatePosT_inj sz rot x1 y1 x2 y2 h1x h1y h2x h2y hr

/-- Witness for C4: instantiating the injectivity statement at a concrete
rotation, mirror mode and coordinate pair on the 128×296 plane. -/
theorem c4_pixel_addressing_injective_witness :
    (3 < (logicalSize displaySize128x296 DisplayRotation.rotate270).1 ∧
     5 < (logicalSize displaySize128x296 DisplayRotation.rotate270).2 ∧
     pixelAddr displaySize128x296 .rotate270 .origin 3 5 =
       pixelAddr displaySize128x296 .rotate270 .origin 3 5) ∧
    (3 = 3 ∧ 5 = 5) :=
  ⟨⟨by decide, by decide, rfl⟩,
    c4_pixel_addressing_injective displaySize128x296 .rotate270 .origin
      3 5 3 5 (by decide) (by decide) (by decide) (by decide) rfl⟩

/-- Claim C5: on a gray plane with default rotation (0°) and no mirroring,
for every in-range coordinate and every level below `2^b`,
`set_pixel(x, y, level)` followed by `get_pixel` at the same raw position
returns exactly `level`, for every color kind (b ∈ {2, 3, 4, 8}). -/
theorem c5_gray_roundtrip (k : GrayKind) (sz : DisplaySize)
    (fb : GrayFrameBuffer) (x y level : Nat) (hrot : fb.rotation = .rotate0)
    (hmir : fb.mirroring = .none) (hx : x < sz.width) (hy : y < sz.height)
    (hl : level < 2 ^ k.bits)
    (hwf : sz.height * grayWidthInByte sz k.bits ≤ sz.n * k.bits) :
    (fb.set_pixel k sz x y level).map
      (fun g => g.get_pixel_in_raw_pos k sz x y) = some level := by
  rw [graySet_rot0_char k sz fb x y level hrot hmir hx hy hwf,
    Option.map_some']
  refine congrArg some ?_
  apply gray_get_of_bits k sz _ x y level hx hy hl
  intro j hj
  exact foldl_writeBit_range (grayPos k sz x y) level.testBit k.bits fb.buf
    (fun i1 i2 _ _ h => grayPos_inj k sz x y i1 i2 h)
    (fun i _ => grayPos_snd_le k sz x y i) j hj

/-- Witness for C5: the specification's own scenario — an 8×1 plane with 2
bits per pixel, `set_pixel(3, 0, 3)` then `get_pixel(3, 0)` returns 3. -/
theorem c5_gray_roundtrip_witness :
    (GrayFrameBuffer.new.rotation = .rotate0 ∧
     GrayFrameBuffer.new.mirroring = .none ∧
     3 < displaySize8x1.width ∧ 0 < displaySize8x1.height ∧
     3 < 2 ^ GrayKind.gray2.bits ∧
     displaySize8x1.height * grayWidthInByte displaySize8x1
       GrayKind.gray2.bits ≤ displaySize8x1.n * GrayKind.gray2.bits) ∧
    (GrayFrameBuffer.set_pixel .gray2 displaySize8x1 GrayFrameBuffer.new
      3 0 3).map
      (fun g => g.get_pixel_in_raw_pos .gray2 displaySize8x1 3 0) = some 3 :=
  ⟨⟨rfl, rfl, by decide, by decide, by decide, by decide⟩,
    c5_gray_roundtrip .gray2 displaySize8x1 GrayFrameBuffer.new 3 0 3 rfl rfl
      (by decide) (by decide) (by decide) (by decide)⟩

/-- Claim C10: reading a gray plane at a raw position with `x ≥ WIDTH` or
`y ≥ HEIGHT` is total and returns the WHITE (maximum-luma) color without
consulting the buffer — the plane (hence its buffer contents) is arbitrary. -/
theorem c10_gray_get_oob_white (k : GrayKind) (sz : DisplaySize)
    (fb : GrayFrameBuffer) (x y : Nat) (h : sz.width ≤ x ∨ sz.height ≤ y) :
    fb.get_pixel_in_raw_pos k sz x y = k.whiteLuma ∧
      k.whiteLuma = k.maxValue := by
  refine ⟨?_, by cases k <;> rfl⟩
  unfold GrayFrameBuffer.get_pixel_in_raw_pos
  rw [if_pos (by omega)]

/-- Witness for C10: reading the 128×296 plane at `x = WIDTH` returns the
maximal Gray4 luma 15. -/
theorem c10_gray_get_oob_white_witness :
    (displaySize128x296.width ≤ 128 ∨ displaySize128x296.height ≤ 0) ∧
    (GrayFrameBuffer.new.get_pixel_in_raw_pos .gray4 displaySize128x296
      128 0 = GrayKind.gray4.whiteLuma ∧
      GrayKind.gray4.whiteLuma = GrayKind.gray4.maxValue) :=
  ⟨Or.inl (by decide),
    c10_gray_get_oob_white .gray4 displaySize128x296 GrayFrameBuffer.new
      128 0 (Or.inl (by decide))⟩

theorem length_flatMap_pair {α β : Type} (f g : α → β) (l : List α) :
    (l.flatMap (fun a => [f a, g a])).length = 2 * l.length := by
  induction l with
  | nil => rfl
  | cons a t ih =>
      rw [List.flatMap_cons, List.length_append, ih, List.length_cons]
      simp
      omega

/-- Claim C1: `display_frame` of a grayscale session emits the grayscale
waveform setup followed by exactly `2^b` `update_frame` + `turn_on_display`
pairs, one per level from `MAX_VALUE = 2^b − 1` down to 0 inclusive in
strictly descending order (the levels are `(List.range (2^b)).reverse`); in
the pass for level `i`, the transmitted scratch buffer holds a cleared
("dark") bit for a pixel exactly when that pixel's stored luma is strictly
below `i`, so a pixel whose luma equals `i` keeps its bit set in that pass. -/
theorem c1_grayscale_passes (k : GrayKind) (sz : DisplaySize)
    (fb : GrayFrameBuffer) (hwf : sz.height * widthInByte sz ≤ sz.n) :
    ∃ tmpOf : Nat → (Nat → Nat),
      grayDisplayFrame k sz fb =
        some (RenderEvent.setupGrayscaleWaveform ::
          (List.range (2 ^ k.bits)).reverse.flatMap (fun i =>
            [RenderEvent.updateFrame (tmpOf i),
             RenderEvent.turnOnDisplay])) ∧
      ((List.range (2 ^ k.bits)).reverse.flatMap (fun i =>
        [RenderEvent.updateFrame (tmpOf i),
         RenderEvent.turnOnDisplay])).length = 2 * 2 ^ k.bits ∧
      (∀ i x y, x < sz.width → y < sz.height →
        ((tmpOf i (bitAddr sz x y).1).testBit (bitAddr sz x y).2 = false ↔
          fb.get_pixel_in_raw_pos k sz x y < i)) ∧
      (∀ i x y, x < sz.width → y < sz.height →
        fb.get_pixel_in_raw_pos k sz x y = i →
          (tmpOf i (bitAddr sz x y).1).testBit (bitAddr sz x y).2 = true) := by
  refine ⟨grayScratchFn k sz fb, grayDisplayFrame_eq k sz fb hwf, ?_, ?_, ?_⟩
  · rw [length_flatMap_pair (fun i => RenderEvent.updateFrame
      (grayScratchFn k sz fb i)) (fun _ => RenderEvent.turnOnDisplay)]
    simp
  · intro i x y hx hy
    rw [grayScratchFn_testBit k sz fb i x y hx hy]
    by_cases hc : fb.get_pixel_in_raw_pos k sz x y < i
    · simp [hc]
    · simp [hc]
  · intro i x y hx hy hv
    rw [grayScratchFn_testBit k sz fb i x y hx hy, if_neg (by omega)]

/-- Witness for C1: the 2-bit grayscale session on the 8×1 plane renders with
4 update/activate pairs over levels 3, 2, 1, 0. -/
theorem c1_grayscale_passes_witness :
    (displaySize8x1.height * widthInByte displaySize8x1 ≤ displaySize8x1.n) ∧
    (∃ tmpOf : Nat → (Nat → Nat),
      grayDisplayFrame .gray2 displaySize8x1 GrayFrameBuffer.new =
        some (RenderEvent.setupGrayscaleWaveform ::
          (List.range (2 ^ GrayKind.gray2.bits)).reverse.flatMap (fun i =>
            [RenderEvent.updateFrame (tmpOf i),
             RenderEvent.turnOnDisplay])) ∧
      ((List.range (2 ^ GrayKind.gray2.bits)).reverse.flatMap (fun i =>
        [RenderEvent.updateFrame (tmpOf i),
         RenderEvent.turnOnDisplay])).length = 2 * 2 ^ GrayKind.gray2.bits ∧
      (∀ i x y, x < displaySize8x1.width → y < displaySize8x1.height →
        ((tmpOf i (bitAddr displaySize8x1 x y).1).testBit
          (bitAddr displaySize8x1 x y).2 = false ↔
          GrayFrameBuffer.new.get_pixel_in_raw_pos .gray2 displaySize8x1
            x y < i)) ∧
      (∀ i x y, x < displaySize8x1.width → y < displaySize8x1.height →
        GrayFrameBuffer.new.get_pixel_in_raw_pos .gray2 displaySize8x1 x y
          = i →
          (tmpOf i (bitAddr displaySize8x1 x y).1).testBit
            (bitAddr displaySize8x1 x y).2 = true)) :=
  ⟨by decide, c1_grayscale_passes .gray2 displaySize8x1 GrayFrameBuffer.new
    (by decide)⟩

/-- Counterexample for C6: the claim says every gray color type saturates
out-of-range `from_u8` inputs to `2^b − 1`; but `Gray2::from_u8 4` stores the
low two bits, giving luma 0, not the maximum 3. -/
theorem c6_from_u8_counterexample :
    GrayKind.fromU8 .gray2 4 = 0 ∧ GrayKind.maxValue .gray2 = 3 ∧
      GrayKind.fromU8 .gray2 4 ≠ GrayKind.maxValue .gray2 := by
  refine ⟨rfl, rfl, by decide⟩

/-- Amended C6: only `Gray3::from_u8` saturates inputs above its maximum 7 to
7 (it alone has an explicit clamp in `color.rs`); `Gray2` and `Gray4`
(delegating to the embedded-graphics constructors) truncate the input to its
low `b` bits; for `Gray8` every `u8` input is in range and is returned
unchanged, so it has no out-of-range input to saturate. -/
theorem c6_from_u8_saturation_amended (v : Nat) (hv : 7 < v) (hv8 : v ≤ 255) :
    GrayKind.fromU8 .gray3 v = GrayKind.maxValue .gray3 ∧
    GrayKind.fromU8 .gray2 v = v % 2 ^ 2 ∧
    GrayKind.fromU8 .gray4 v = v % 2 ^ 4 ∧
    GrayKind.fromU8 .gray8 v = v := by
  refine ⟨?_, rfl, rfl, ?_⟩
  · show (if v > 7 then 7 else v) = GrayKind.maxValue .gray3
    rw [if_pos hv]
    rfl
  · show v % 256 = v
    omega

/-- Witness for C6 (amended): evaluating the four `from_u8` behaviours at the
out-of-range input 9. -/
theorem c6_from_u8_saturation_amended_witness :
    (7 < 9 ∧ 9 ≤ 255) ∧
    (GrayKind.fromU8 .gray3 9 = GrayKind.maxValue .gray3 ∧
     GrayKind.fromU8 .gray2 9 = 9 % 2 ^ 2 ∧
     GrayKind.fromU8 .gray4 9 = 9 % 2 ^ 4 ∧
     GrayKind.fromU8 .gray8 9 = 9) :=
  ⟨⟨by decide, by decide⟩,
    c6_from_u8_saturation_amended 9 (by decide) (by decide)⟩

/-- Claim C7: drawing one pixel on a tri-color session decomposes the color
purely by the table White → (On, Off), Black → (Off, Off), Red → (On, On),
performing exactly one binary-plane write per channel at the same point. -/
theorem c7_tri_color_table (sz : DisplaySize) (fb0 fb1 : FrameBuffer)
    (p : Int × Int) (color : TriColor) :
    TriColorEpd.draw_pixel sz fb0 fb1 p color =
      (do
        let f0 ← fb0.draw_pixel sz p (specTriTable color).1
        let f1 ← fb1.draw_pixel sz p (specTriTable color).2
        pure (f0, f1)) := by
  cases color <;> rfl

/-- Counterexample for C8: the claim says a freshly constructed plane holds
0xFF bytes when not inverted and 0x00 bytes when constructed inverted; the
constructors do the opposite — `new()` zeroes the buffer and `new_inverted()`
fills it with 0xFF. -/
theorem c8_fresh_plane_counterexample :
    FrameBuffer.new.inverted = false ∧ FrameBuffer.new.buf 0 = 0x00 ∧
    FrameBuffer.new_inverted.inverted = true ∧
    FrameBuffer.new_inverted.buf 0 = 0xff ∧ (0xff : Nat) ≠ 0x00 := by
  refine ⟨rfl, rfl, rfl, rfl, by decide⟩

/-- Amended C8: as observed through `as_bytes`, `new()` yields all-0x00 bytes
(not inverted) and `new_inverted()` all-0xFF bytes (inverted) — both encode
the all-On pattern; the all-light byte patterns the claim describes (0xFF
when not inverted, 0x00 when inverted) are what `fill` with the light color
`BinaryColor::Off` produces. -/
theorem c8_fresh_plane_amended (sz : DisplaySize) (fb : FrameBuffer) :
    FrameBuffer.new.as_bytes sz = List.replicate sz.n 0x00 ∧
    FrameBuffer.new_inverted.as_bytes sz = List.replicate sz.n 0xff ∧
    (fb.fill .off).as_bytes sz =
      List.replicate sz.n (if fb.inverted then 0x00 else 0xff) ∧
    (fb.fill .on).as_bytes sz =
      List.replicate sz.n (if fb.inverted then 0xff else 0x00) := by
  have hmap : ∀ (c : Nat), (List.range sz.n).map (fun _ => c) =
      List.replicate sz.n c := by
    intro c
    rw [List.map_const']
    rw [List.length_range]
  refine ⟨hmap 0x00, hmap 0xff, ?_, ?_⟩
  · show (List.range sz.n).map (fb.fill .off).buf = _
    cases hin : fb.inverted <;>
      simp only [FrameBuffer.fill, hin] <;> exact hmap _
  · show (List.range sz.n).map (fb.fill .on).buf = _
    cases hin : fb.inverted <;>
      simp only [FrameBuffer.fill, hin] <;> exact hmap _

/-- Counterexample for C9: the claim says every multi-channel driver returns
`Err(InvalidChannel)` for a channel index other than 0 or 1; `SSD1619A`
instead returns `Ok`, having already issued only the cursor-positioning
commands, with no frame data transferred. -/
theorem c9_invalid_channel_counterexample :
    SSD1619A.update_channel_frame 2 [0xab] = .ok ssdCursorPrefix ∧
    ∀ e : DisplayError,
      SSD1619A.update_channel_frame 2 [0xab] ≠ .error e := by
  refine ⟨rfl, fun e h => ?_⟩
  rw [show SSD1619A.update_channel_frame 2 [0xab] = .ok ssdCursorPrefix
    from rfl] at h
  cases h

/-- Amended C9: for a channel index outside {0, 1}, `UC8176` and `UC8179`
return `Err(InvalidChannel)` without touching the transport; `SSD1619A`,
`SSD1680` and `SSD1675B` return `Ok` after issuing only the
cursor-positioning commands; `PervasiveDisplays` returns `Ok` having issued
nothing. In every driver no frame data is transferred for an invalid
channel. -/
theorem c9_invalid_channel_amended (channel : Nat) (buffer : List Nat)
    (h : 2 ≤ channel) :
    UC8176.update_channel_frame channel buffer = .error .InvalidChannel ∧
    UC8179.update_channel_frame channel buffer = .error .InvalidChannel ∧
    SSD1619A.update_channel_frame channel buffer = .ok ssdCursorPrefix ∧
    SSD1680.update_channel_frame channel buffer = .ok ssdCursorPrefix ∧
    SSD1675B.update_channel_frame channel buffer = .ok ssdCursorPrefix ∧
    PervasiveDisplays.update_channel_frame channel buffer = .ok [] := by
  have h0 : channel ≠ 0 := by omega
  have h1 : channel ≠ 1 := by omega
  refine ⟨?_, ?_, ?_, ?_, ?_, ?_⟩ <;>
    simp only [UC8176.update_channel_frame, UC8179.update_channel_frame,
      SSD1619A.update_channel_frame, SSD1680.update_channel_frame,
      SSD1675B.update_channel_frame, PervasiveDisplays.update_channel_frame,
      if_neg h0, if_neg h1]

/-- Witness for C9 (amended): evaluating all six drivers at channel 2. -/
theorem c9_invalid_channel_amended_witness :
    2 ≤ 2 ∧
    (UC8176.update_channel_frame 2 [] = .error .InvalidChannel ∧
     UC8179.update_channel_frame 2 [] = .error .InvalidChannel ∧
     SSD1619A.update_channel_frame 2 [] = .ok ssdCursorPrefix ∧
     SSD1680.update_channel_frame 2 [] = .ok ssdCursorPrefix ∧
     SSD1675B.update_channel_frame 2 [] = .ok ssdCursorPrefix ∧
     PervasiveDisplays.update_channel_frame 2 [] = .ok []) :=
  ⟨by decide, c9_invalid_channel_amended 2 [] (by decide)⟩

end Epd
